import Mathlib

/-!
Shallow embedding of the isnapshot incremental backup engine
(src/isnapshot.c) and verification of its specification claims.

Conventions of the embedding:
* machine integers (off_t, time_t, mode_t) become Nat or Int, with bit
  operations spelled out where the C code uses them;
* system calls become oracle functions passed in as parameters: a Bool
  (or Option) per call site describing whether the call succeeds, keyed
  by the path it is invoked on;
* the filesystem walked by process_file becomes an inductive tree, and
  the side effects of a run become an explicit list of materialization
  events plus the two byte accumulators.
-/

namespace ISnapshot

/-! ## Path joining (join_path in isnapshot.c)

The C code copies `path`, appends a slash unless `path` already ends in
one, skips leading slashes of `filename`, and concatenates. -/

def join_path (path filename : String) : String :=
  ⟨(if path.data.getLast? = some '/' then path.data else path.data ++ ['/']) ++
    filename.data.dropWhile (fun c => c = '/')⟩

/-! ## Directory entry filtering (ignore_dir) -/

def ignore_dir (name : String) : Bool :=
  name = "." || name = ".."

/-! ## Previous snapshot location (locate_previous)

The C code enumerates children of the backup root, skips "." and "..",
parses each name with strptime against the date format and rejects the
name unless the parse succeeded and consumed the whole name
(`if (!res || *res) continue;`), converts with mktime, and keeps the
name with the largest instant, starting from `time_t latest = 0` and
replacing only on a strictly greater instant.

The strptime/mktime pair is modelled by an oracle
`p : String -> Option (Int × Nat)` giving for a name the parsed instant
and the number of characters consumed; `none` is a failed parse. -/

def strictParse (p : String → Option (Int × Nat)) (name : String) : Option Int :=
  match p name with
  | some (t, consumed) => if consumed = name.length then some t else none
  | none => none

/-- Instant of a child name that survives both filters of the loop body:
not "." or "..", and strictly parsed. -/
def candInstant (p : String → Option (Int × Nat)) (name : String) : Option Int :=
  if ignore_dir name then none else strictParse p name

structure LocState where
  result : Option String
  latest : Int
deriving Repr, DecidableEq

/-- One iteration of the readdir loop of locate_previous. -/
def locate_step (p : String → Option (Int × Nat)) (root : String)
    (st : LocState) (name : String) : LocState :=
  match candInstant p name with
  | none => st
  | some current =>
      if st.latest < current then
        { result := some (join_path root name), latest := current }
      else st

/-- Model of locate_previous. `children` is the readdir enumeration of
the backup root in filesystem order; `none` models an unreadable root
(opendir failure), for which the C code reports an error and returns
NULL. -/
def locate_previous (p : String → Option (Int × Nat)) (root : String)
    (children : Option (List String)) : Option String :=
  match children with
  | none => none
  | some cs => (cs.foldl (locate_step p root) ⟨none, 0⟩).result

/-! ## Metadata restoration (copy_time)

The C code sets utime, then chown, then chmod, in a straight line with
no early return; on chown failure it clears S_ISUID and S_ISGID from
the mode chmod will apply (`s->st_mode &= ~(S_ISUID | S_ISGID)`), and
the overall result is false as soon as any call failed.

Syscall outcomes are oracles: utimeOk, chownOk are Bool, chmodOk is a
function of the mode actually passed to chmod. -/

def S_ISUID : Nat := 0o4000
def S_ISGID : Nat := 0o2000
def S_IRWXU : Nat := 0o700

/-- Bitmask complement of S_ISUID|S_ISGID within 32-bit mode_t, modelling
the C expression `~(S_ISUID | S_ISGID)`. -/
def SETID_COMPLEMENT : Nat := (2 ^ 32 - 1) ^^^ (S_ISUID ||| S_ISGID)

/-- Effect of `s->st_mode &= ~(S_ISUID | S_ISGID)` on the mode. -/
def clearSetid (m : Nat) : Nat := m &&& SETID_COMPLEMENT

/-- Names of the three metadata sub-steps, in order of attempt. -/
inductive MetaStep where
  | utimeStep
  | chownStep
  | chmodStep
deriving Repr, DecidableEq

structure CopyTimeResult where
  /-- Overall return value of copy_time. -/
  result : Bool
  /-- Sub-steps whose system call was issued, in order. -/
  attempted : List MetaStep
  /-- The mode value passed to chmod. -/
  chmodMode : Nat
deriving Repr, DecidableEq

/-- Model of copy_time: the utime, chown and chmod calls in sequence. -/
def copy_time (mode : Nat) (utimeOk chownOk : Bool) (chmodOk : Nat → Bool) :
    CopyTimeResult :=
  let r1 := utimeOk
  let mode2 := if chownOk then mode else clearSetid mode
  let r2 := r1 && chownOk
  let r3 := r2 && chmodOk mode2
  { result := r3
    attempted := [MetaStep.utimeStep, MetaStep.chownStep, MetaStep.chmodStep]
    chmodMode := mode2 }

/-! ## File copying (copy_file)

The C code allocates `malloc(s->st_blksize)` but the read loop is
`read(in, buffer, sizeof(buffer))` where `buffer` is a `char*`, so each
read requests `sizeof(char*)` bytes (8 on the 64-bit targets the
program is built for), not the allocated block size. -/

/-- Size of a data pointer on the 64-bit target, the value of the C
expression `sizeof(buffer)` for `char* buffer`. -/
def sizeof_char_ptr : Nat := 8

/-- Number of bytes allocated for the streaming buffer:
`malloc(s->st_blksize)`. -/
def copy_buffer_alloc (blksize : Nat) : Nat := blksize

/-- Number of bytes requested from read() in each loop iteration:
`read(in, buffer, sizeof(buffer))`. -/
def copy_read_request (_blksize : Nat) : Nat := sizeof_char_ptr

/-- Recursion core of copy_chunks; the extra Nat is fuel, always called
with the content length, which bounds the number of nonempty reads. -/
def copy_chunks_go (c : Nat) : Nat → List Nat → List (List Nat)
  | _, [] => []
  | 0, _ :: _ => []
  | fuel + 1, x :: rest =>
      if c = 0 then []
      else (x :: rest).take c :: copy_chunks_go c fuel ((x :: rest).drop c)

/-- The chunks successively read and written by the copy loop for a
source file with the given content, when every read and write succeeds:
read returns min(requested, remaining) bytes until the content is
exhausted. -/
def copy_chunks (c : Nat) (content : List Nat) : List (List Nat) :=
  copy_chunks_go c content.length content

/-- The write sequence produced by copy_file on a source file with the
given preferred block size and content. -/
def copy_file_writes (blksize : Nat) (content : List Nat) : List (List Nat) :=
  copy_chunks (copy_read_request blksize) content

/-! ## Symlinking to the previous snapshot (symlink_file)

symlink_file(source, dest) lstats the previous-snapshot counterpart; if
it is itself a symlink it reads the link once and uses the link target
as the symlink source, otherwise it uses the counterpart path itself;
then it calls symlink(source, dest).

What the previous snapshot holds at a path is modelled by PrevState:
`absent` when stat() on the path fails, otherwise the entry with its
stat mtime (stat follows links, so a linkTo carries the mtime of the
resolved file). -/

inductive PrevState where
  | absent
  | regular (mtime : Int)
  | linkTo (target : String) (mtime : Int)
deriving Repr, DecidableEq

/-- The string symlink_file passes to symlink() as the link target:
the counterpart path itself for a non-link counterpart, the result of
one readlink for a link counterpart, none when lstat fails. -/
def symlink_source (sourcePath : String) : PrevState → Option String
  | .absent => none
  | .regular _ => some sourcePath
  | .linkTo t _ => some t

/-! ## The walker state and effects -/

structure FileMeta where
  mode : Nat
  uid : Nat
  gid : Nat
  mtime : Int
  size : Nat
  rdev : Nat
deriving Repr, DecidableEq

/-! Source trees as seen through lstat: one constructor per recognized
entry kind. `node` covers the block, character and socket entries that
all reach the mknod branch; `unknown` is any unrecognized type. -/
mutual
inductive SrcTree where
  | dir (meta : FileMeta) (children : SrcForest)
  | reg (meta : FileMeta)
  | lnk (meta : FileMeta) (target : String)
  | fifo (meta : FileMeta)
  | node (meta : FileMeta)
  | unknown (meta : FileMeta)
deriving Repr, DecidableEq

inductive SrcForest where
  | nil
  | cons (name : String) (t : SrcTree) (rest : SrcForest)
deriving Repr, DecidableEq
end

/-- Materialization events performed on the destination, in program
order. An event is recorded only when its system call succeeded. -/
inductive Effect where
  | mkdirE (dest : String) (mode : Nat)
  | chmodE (dest : String) (mode : Nat)
  | restoreE (dest : String) (chmodMode : Nat)
  | copyE (source dest : String) (mode : Nat)
  | symlinkE (target dest : String)
  | lchownE (dest : String)
  | fifoE (dest : String) (mode : Nat)
  | nodeE (dest : String) (mode : Nat) (rdev : Nat)
deriving Repr, DecidableEq

/-- Result of a process_file call: return value, materializations, and
the deltas applied to the two global byte accumulators. -/
structure WalkOut where
  ok : Bool
  effects : List Effect
  total_bytes : Nat
  bytes_copied : Nat
deriving Repr, DecidableEq

/-- The global option flags and process state read by process_file. The
fnmatch test against the exclusion pattern is an oracle predicate. -/
structure Config where
  force_copy : Bool
  count_bytes : Bool
  exclude : Option (String → Bool)
  umask : Nat

/-- Outcomes of the system calls process_file issues, keyed by the path
each call is given. chmodOk also receives the mode passed to chmod. -/
structure Sys where
  mkdirOk : String → Bool
  opendirOk : String → Bool
  chmodOk : String → Nat → Bool
  utimeOk : String → Bool
  chownOk : String → Bool
  copyOk : String → Bool
  symlinkOk : String → Bool
  readlinkOk : String → Bool
  lchownOk : String → Bool
  mkfifoOk : String → Bool
  mknodOk : String → Bool

/-- The test `exclude_pattern && !fnmatch(exclude_pattern, source, 0)`. -/
def excluded (cfg : Config) (source : String) : Bool :=
  match cfg.exclude with
  | none => false
  | some m => m source

/-- The C expression `m & ~mask` on 32-bit mode_t values. -/
def andNot (m mask : Nat) : Nat := m &&& ((2 ^ 32 - 1) ^^^ mask)

/-- The stat-and-compare disjuncts of the regular-file decision:
`stat(prev_dest, &prev_stat) < 0 || (source mtime != prev mtime)`. -/
def prev_changed (prev : String → PrevState) (prev_dest : String) (mt : Int) : Bool :=
  match prev prev_dest with
  | .absent => true
  | .regular pmt => decide (mt ≠ pmt)
  | .linkTo _ pmt => decide (mt ≠ pmt)

/-- The full regular-file decision
`!prev_dest || force_copy || stat(...) < 0 || mtime differs`. -/
def fresh_needed (cfg : Config) (prev : String → PrevState)
    (prev_dest : Option String) (mt : Int) : Bool :=
  match prev_dest with
  | none => true
  | some pd => cfg.force_copy || prev_changed prev pd mt

/-- The fresh-copy branch of the regular-file case:
`result = copy_file(...) && copy_time(...)` then the conditional
bytes_copied update. `tb` is the total_bytes delta already decided. -/
def reg_fresh (cfg : Config) (sys : Sys) (source dest : String)
    (meta : FileMeta) (tb : Nat) : WalkOut :=
  let cb := if cfg.count_bytes then meta.size else 0
  if sys.copyOk dest then
    let ct := copy_time meta.mode (sys.utimeOk dest) (sys.chownOk dest) (sys.chmodOk dest)
    ⟨ct.result, [Effect.copyE source dest meta.mode, Effect.restoreE dest ct.chmodMode], tb, cb⟩
  else ⟨false, [], tb, cb⟩

/-- The symlink-to-previous branch of the regular-file case:
`result = symlink_file(prev_dest, dest)`. -/
def reg_link (sys : Sys) (prev : String → PrevState) (prev_dest dest : String)
    (tb : Nat) : WalkOut :=
  match symlink_source prev_dest (prev prev_dest) with
  | none => ⟨false, [], tb, 0⟩
  | some target =>
      match prev prev_dest with
      | .linkTo _ _ =>
          if !sys.readlinkOk prev_dest then ⟨false, [], tb, 0⟩
          else if sys.symlinkOk dest then ⟨true, [Effect.symlinkE target dest], tb, 0⟩
          else ⟨false, [], tb, 0⟩
      | _ =>
          if sys.symlinkOk dest then ⟨true, [Effect.symlinkE target dest], tb, 0⟩
          else ⟨false, [], tb, 0⟩

/-! The recursive walker, one clause per entry kind, and the readdir
loop over a directory with its fail-fast `while (entry && result)`
condition. -/
mutual
def process_file (cfg : Config) (sys : Sys) (prev : String → PrevState)
    (source : String) (tree : SrcTree) (root : String) (prev_root : Option String) :
    WalkOut :=
  if excluded cfg source then ⟨true, [], 0, 0⟩
  else
    let dest := join_path root source
    let prev_dest := prev_root.map (fun pr => join_path pr source)
    match tree with
    | .dir meta children =>
        let m := meta.mode ||| S_IRWXU
        if !sys.mkdirOk dest then ⟨false, [], 0, 0⟩
        else if !sys.opendirOk source then ⟨false, [Effect.mkdirE dest m], 0, 0⟩
        else
          let sub := process_children cfg sys prev source children root prev_root
          let eff0 := Effect.mkdirE dest m :: sub.effects
          if !sub.ok then ⟨false, eff0, sub.total_bytes, sub.bytes_copied⟩
          else
            let finalMode := andNot m cfg.umask
            if !sys.chmodOk dest finalMode then
              ⟨false, eff0, sub.total_bytes, sub.bytes_copied⟩
            else
              let ct := copy_time m (sys.utimeOk dest) (sys.chownOk dest) (sys.chmodOk dest)
              ⟨ct.result,
                eff0 ++ [Effect.chmodE dest finalMode, Effect.restoreE dest ct.chmodMode],
                sub.total_bytes, sub.bytes_copied⟩
    | .reg meta =>
        let tb := if cfg.count_bytes then meta.size else 0
        if fresh_needed cfg prev prev_dest meta.mtime then
          reg_fresh cfg sys source dest meta tb
        else
          match prev_dest with
          | none => ⟨false, [], tb, 0⟩
          | some pd => reg_link sys prev pd dest tb
    | .lnk _ target =>
        if !sys.readlinkOk source then ⟨false, [], 0, 0⟩
        else if !sys.symlinkOk dest then ⟨false, [], 0, 0⟩
        else if !sys.lchownOk dest then ⟨false, [Effect.symlinkE target dest], 0, 0⟩
        else ⟨true, [Effect.symlinkE target dest, Effect.lchownE dest], 0, 0⟩
    | .fifo meta =>
        if sys.mkfifoOk dest then ⟨true, [Effect.fifoE dest meta.mode], 0, 0⟩
        else ⟨false, [], 0, 0⟩
    | .node meta =>
        if sys.mknodOk dest then ⟨true, [Effect.nodeE dest meta.mode meta.rdev], 0, 0⟩
        else ⟨false, [], 0, 0⟩
    | .unknown _ => ⟨false, [], 0, 0⟩

def process_children (cfg : Config) (sys : Sys) (prev : String → PrevState)
    (source : String) (children : SrcForest) (root : String)
    (prev_root : Option String) : WalkOut :=
  match children with
  | .nil => ⟨true, [], 0, 0⟩
  | .cons name t rest =>
      if ignore_dir name then process_children cfg sys prev source rest root prev_root
      else
        let r := process_file cfg sys prev (join_path source name) t root prev_root
        if r.ok then
          let rs := process_children cfg sys prev source rest root prev_root
          ⟨rs.ok, r.effects ++ rs.effects, r.total_bytes + rs.total_bytes,
            r.bytes_copied + rs.bytes_copied⟩
        else r
end

/-! ## Link chains across generations

For one unchanged file, generation 0 is the fresh copy and each later
generation stores whatever symlink_file creates from the previous
generation entry found at `paths n`, the path of the file inside
snapshot n. -/

def snapEntry (paths : Nat → String) (mt : Int) : Nat → PrevState
  | 0 => PrevState.regular mt
  | n + 1 =>
      match symlink_source (paths n) (snapEntry paths mt n) with
      | some t => PrevState.linkTo t mt
      | none => PrevState.absent

/-- Number of link indirections from an entry down to a non-link entry,
looking link targets up in `store`; `fuel` bounds the recursion, and a
target missing from the store ends the chain after its one link. -/
def chainDepth (store : String → Option PrevState) : PrevState → Nat → Nat
  | PrevState.regular _, _ => 0
  | PrevState.absent, _ => 0
  | PrevState.linkTo _ _, 0 => 1
  | PrevState.linkTo t _, fuel + 1 =>
      match store t with
      | some e => 1 + chainDepth store e fuel
      | none => 1

/-! ## Spec-side statement of the regular-file decision -/

/-- The mtime stat() reports for a previous-snapshot path, none when
stat fails. -/
def prevStatMtime : PrevState → Option Int
  | PrevState.absent => none
  | PrevState.regular pmt => some pmt
  | PrevState.linkTo _ pmt => some pmt

/-- Modelled from the wording of the specification, for comparison with
the code path: a fresh copy is required when the previous root is
unset, or full-backup mode is forced, or the counterpart cannot be
stat'd, or its modification time differs from the source mtime. -/
def FreshCond (cfg : Config) (prev : String → PrevState)
    (prev_root : Option String) (source : String) (mt : Int) : Prop :=
  prev_root = none ∨ cfg.force_copy = true ∨
    ∃ pr, prev_root = some pr ∧
      (prevStatMtime (prev (join_path pr source)) = none ∨
       ∃ pmt, prevStatMtime (prev (join_path pr source)) = some pmt ∧ mt ≠ pmt)

/-! ## Concrete fixtures used by witnesses and counterexamples -/

def sysAllOk : Sys :=
  ⟨fun _ => true, fun _ => true, fun _ _ => true, fun _ => true, fun _ => true,
   fun _ => true, fun _ => true, fun _ => true, fun _ => true, fun _ => true,
   fun _ => true⟩

def sysNoLchown : Sys := { sysAllOk with lchownOk := fun _ => false }

def cfgPlain : Config := ⟨false, false, none, 0o22⟩

def cfgCount : Config := { cfgPlain with count_bytes := true }

def cfgExcl : Config := { cfgPlain with exclude := some (fun s => s = "/sec") }

def metaReg : FileMeta := ⟨0o644, 0, 0, 100, 5, 0⟩

def metaDirRO : FileMeta := ⟨0o555, 0, 0, 100, 0, 0⟩

def prevAbsent : String → PrevState := fun _ => PrevState.absent

/-- Previous snapshot holding an unchanged regular counterpart of
metaReg under /p. -/
def prevSame : String → PrevState :=
  fun s => if s = "/p/f" then PrevState.regular 100 else PrevState.absent

/-- Parse oracle with a single valid name whose instant is the epoch. -/
def parseEpochOnly : String → Option (Int × Nat) :=
  fun n => if n = "x" then some (0, 1) else none

/-- Parse oracle with two valid one-character names, instants 5 and 3. -/
def parseTwo : String → Option (Int × Nat) :=
  fun n => if n = "a" then some (5, 1) else if n = "b" then some (3, 1) else none

/-- Lineage fixture: path of the tracked file inside snapshot k. -/
def lineagePaths : Nat → String :=
  fun k => ⟨'s' :: List.replicate k 'a'⟩

/-- Lineage fixture: store resolving the snapshot-0 path to the copy. -/
def lineageStore : String → Option PrevState :=
  fun t => if t = "s" then some (PrevState.regular 7) else none

/-! # Theorems -/

/-- C3: copy_file allocates st_blksize bytes but each read request is
`sizeof(buffer)` where buffer is a char pointer, 8 bytes on the 64-bit
target; for the failing input blksize = 4096 the two sizes differ, and
a 16-byte file is streamed in 8-byte chunks instead of one 4096-byte
read. -/
theorem C3_read_request_mismatch :
    copy_buffer_alloc 4096 = 4096 ∧
    copy_read_request 4096 = 8 ∧
    copy_read_request 4096 ≠ copy_buffer_alloc 4096 ∧
    copy_file_writes 4096 (List.range 16) =
      [[0, 1, 2, 3, 4, 5, 6, 7], [8, 9, 10, 11, 12, 13, 14, 15]] := by
  decide

/-- C4: copy_time issues all three sub-steps in order with no early
return, its result is the conjunction of the three outcomes, and on a
chown failure the mode passed to chmod has the setuid and setgid bits
cleared. -/
theorem C4_copy_time_substeps (mode : Nat) (u c : Bool) (k : Nat → Bool) :
    (copy_time mode u c k).attempted =
      [MetaStep.utimeStep, MetaStep.chownStep, MetaStep.chmodStep] ∧
    (copy_time mode u c k).result =
      (u && (c && k ((copy_time mode u c k).chmodMode))) ∧
    (copy_time mode u c k).chmodMode = (if c then mode else clearSetid mode) ∧
    (c = false →
      (copy_time mode u c k).chmodMode &&& (S_ISUID ||| S_ISGID) = 0) := by
  refine ⟨rfl, ?_, rfl, ?_⟩
  · simp [copy_time, Bool.and_assoc]
  · intro hc
    subst hc
    show clearSetid mode &&& (S_ISUID ||| S_ISGID) = 0
    rw [clearSetid, Nat.land_assoc]
    have h : SETID_COMPLEMENT &&& (S_ISUID ||| S_ISGID) = 0 := by decide
    rw [h]
    simp

/-- C4 witness: a failing chown with mode 0o4755 leaves chmod applying
a mode with no setuid or setgid bit. -/
theorem C4_witness :
    (copy_time 0o4755 true false (fun _ => true)).chmodMode &&&
      (S_ISUID ||| S_ISGID) = 0 :=
  (C4_copy_time_substeps 0o4755 true false (fun _ => true)).2.2.2 rfl

/-- C7: a source entry whose path matches the exclusion pattern is
reported as success with no destination effect, no accumulator update,
and, the return being taken before any recursion, no descendant is
visited or materialized. -/
theorem C7_excluded_is_pruned (cfg : Config) (sys : Sys) (prev : String → PrevState)
    (source : String) (tree : SrcTree) (root : String) (prev_root : Option String)
    (h : excluded cfg source = true) :
    process_file cfg sys prev source tree root prev_root = ⟨true, [], 0, 0⟩ := by
  unfold process_file
  simp [h]

/-- C7 witness: a matching directory with a child produces nothing and
succeeds. -/
theorem C7_witness :
    process_file cfgExcl sysAllOk prevAbsent "/sec"
        (SrcTree.dir metaReg (SrcForest.cons "a" (SrcTree.reg metaReg) SrcForest.nil))
        "/r" none = ⟨true, [], 0, 0⟩ :=
  C7_excluded_is_pruned cfgExcl sysAllOk prevAbsent "/sec"
    (SrcTree.dir metaReg (SrcForest.cons "a" (SrcTree.reg metaReg) SrcForest.nil))
    "/r" none (by decide)

/-- C8 counterexample: for a source symlink, when only lchown fails the
link is created verbatim yet process_file returns failure, refuting the
claim that an ownership-restoration failure alone does not fail the
entry. -/
theorem C8_counterexample :
    (process_file cfgPlain sysNoLchown prevAbsent "/l" (SrcTree.lnk metaReg "tgt")
        "/r" none).ok = false ∧
    (process_file cfgPlain sysNoLchown prevAbsent "/l" (SrcTree.lnk metaReg "tgt")
        "/r" none).effects = [Effect.symlinkE "tgt" "/r/l"] := by
  decide

/-- C8 amended: the walker reproduces the target string of a source
symlink verbatim at the destination and then restores ownership with
lchown, and the entry succeeds exactly when that lchown succeeds. -/
theorem C8_symlink_entry (cfg : Config) (sys : Sys) (prev : String → PrevState)
    (source root : String) (prev_root : Option String) (meta : FileMeta)
    (target : String)
    (hex : excluded cfg source = false)
    (hrl : sys.readlinkOk source = true)
    (hsl : sys.symlinkOk (join_path root source) = true) :
    Effect.symlinkE target (join_path root source) ∈
      (process_file cfg sys prev source (SrcTree.lnk meta target) root prev_root).effects ∧
    (process_file cfg sys prev source (SrcTree.lnk meta target) root prev_root).ok =
      sys.lchownOk (join_path root source) := by
  unfold process_file
  simp only [hex, hrl, hsl, Bool.false_eq_true, if_false, Bool.not_true, Bool.not_false,
    if_true]
  cases h : sys.lchownOk (join_path root source) <;> simp

/-- C2: symlink_file passes the target of a link counterpart through
unchanged (one level of resolution), every generation after the fresh
copy links directly to the generation-0 path, and the indirection depth
of any generation entry never exceeds one. -/
theorem C2_link_chain_one_level (paths : Nat → String) (mt : Int)
    (store : String → Option PrevState)
    (h0 : store (paths 0) = some (PrevState.regular mt)) :
    (∀ sp t pm, symlink_source sp (PrevState.linkTo t pm) = some t) ∧
    (∀ n, snapEntry paths mt (n + 1) = PrevState.linkTo (paths 0) mt) ∧
    (∀ n fuel, chainDepth store (snapEntry paths mt n) fuel ≤ 1) := by
  have key : ∀ n, snapEntry paths mt (n + 1) = PrevState.linkTo (paths 0) mt := by
    intro n
    induction n with
    | zero => rfl
    | succ k ih => rw [snapEntry, ih]; rfl
  refine ⟨fun _ _ _ => rfl, key, ?_⟩
  intro n fuel
  cases n with
  | zero => cases fuel <;> simp [snapEntry, chainDepth]
  | succ k =>
      rw [key k]
      cases fuel with
      | zero => simp [chainDepth]
      | succ f => simp [chainDepth, h0]

/-- C2 witness: after three unchanged generations the stored entry of
the lineage fixture still resolves with at most one indirection. -/
theorem C2_witness :
    chainDepth lineageStore (snapEntry lineagePaths 7 3) 10 ≤ 1 :=
  (C2_link_chain_one_level lineagePaths 7 lineageStore (by decide)).2.2 3 10

/-- C5: the assignment `source_stat.st_mode |= S_IRWXU` mutates the
saved stat, so the post-children chmod applies the augmented mode: for
a read-only 0o555 directory under umask 0o22 the destination ends at
mode 0o755, not the original 0o555 minus the mask — the owner
read/write/execute augmentation persists, against the claim. -/
theorem C5_augmented_mode_persists :
    process_file cfgPlain sysAllOk prevAbsent "/d" (SrcTree.dir metaDirRO SrcForest.nil)
        "/r" none =
      ⟨true, [Effect.mkdirE "/r/d" 0o755, Effect.chmodE "/r/d" 0o755,
        Effect.restoreE "/r/d" 0o755], 0, 0⟩ ∧
    andNot metaDirRO.mode cfgPlain.umask = 0o555 ∧
    (0o755 : Nat) ≠ 0o555 := by
  decide

/-- C1 counterexample: with byte counting disabled a fresh copy is
performed (the copy event is materialized) yet the copied-bytes
accumulator is not increased by the 5-byte file size. -/
theorem C1_counterexample :
    Effect.copyE "/f" "/r/f" metaReg.mode ∈
      (process_file cfgPlain sysAllOk prevAbsent "/f" (SrcTree.reg metaReg)
        "/r" none).effects ∧
    metaReg.size = 5 ∧
    (process_file cfgPlain sysAllOk prevAbsent "/f" (SrcTree.reg metaReg)
        "/r" none).bytes_copied = 0 := by
  decide

/-- C1 amended: for a regular file the fresh-copy path is taken exactly
under the spec condition (previous root unset, forced full backup,
counterpart not stat-able, or differing mtime); otherwise the entry is
a symlink at whatever symlink_file selects from the previous
counterpart; and the copied-bytes accumulator gains the file size in
the fresh case only when byte counting is enabled. -/
theorem C1_regular_file_decision (cfg : Config) (sys : Sys) (prev : String → PrevState)
    (source root : String) (prev_root : Option String) (meta : FileMeta)
    (hex : excluded cfg source = false) :
    (FreshCond cfg prev prev_root source meta.mtime ↔
      fresh_needed cfg prev (prev_root.map fun pr => join_path pr source)
        meta.mtime = true) ∧
    (fresh_needed cfg prev (prev_root.map fun pr => join_path pr source)
        meta.mtime = true →
      process_file cfg sys prev source (SrcTree.reg meta) root prev_root =
        reg_fresh cfg sys source (join_path root source) meta
          (if cfg.count_bytes then meta.size else 0) ∧
      (process_file cfg sys prev source (SrcTree.reg meta) root prev_root).bytes_copied =
        (if cfg.count_bytes then meta.size else 0) ∧
      (sys.copyOk (join_path root source) = true →
        Effect.copyE source (join_path root source) meta.mode ∈
          (process_file cfg sys prev source (SrcTree.reg meta) root prev_root).effects)) ∧
    (fresh_needed cfg prev (prev_root.map fun pr => join_path pr source)
        meta.mtime = false →
      ∃ pr, prev_root = some pr ∧
        process_file cfg sys prev source (SrcTree.reg meta) root prev_root =
          reg_link sys prev (join_path pr source) (join_path root source)
            (if cfg.count_bytes then meta.size else 0) ∧
        (process_file cfg sys prev source (SrcTree.reg meta) root prev_root).bytes_copied
          = 0 ∧
        ∃ target,
          symlink_source (join_path pr source) (prev (join_path pr source)) =
            some target ∧
          (sys.readlinkOk (join_path pr source) = true →
            sys.symlinkOk (join_path root source) = true →
            (process_file cfg sys prev source (SrcTree.reg meta) root
              prev_root).effects =
              [Effect.symlinkE target (join_path root source)])) := by
  refine ⟨?_, ?_, ?_⟩
  · cases prev_root with
    | none => simp [FreshCond, fresh_needed]
    | some pr =>
        simp only [FreshCond, fresh_needed, Option.map_some, Option.some.injEq]
        cases hf : cfg.force_copy with
        | true => simp [prev_changed]
        | false =>
            simp only [Bool.false_eq_true, false_or, Bool.false_or]
            cases hp : prev (join_path pr source) with
            | absent => simp [prev_changed, hp, prevStatMtime]
            | regular pmt => simp [prev_changed, hp, prevStatMtime]
            | linkTo t pmt => simp [prev_changed, hp, prevStatMtime]
  · intro hfresh
    have hpf : process_file cfg sys prev source (SrcTree.reg meta) root prev_root =
        reg_fresh cfg sys source (join_path root source) meta
          (if cfg.count_bytes then meta.size else 0) := by
      unfold process_file
      simp [hex, hfresh]
    refine ⟨hpf, ?_, ?_⟩
    · rw [hpf]
      unfold reg_fresh
      cases h : sys.copyOk (join_path root source) <;> simp [h]
    · intro hcopy
      rw [hpf]
      unfold reg_fresh
      simp [hcopy]
  · intro hfresh
    cases prev_root with
    | none => simp [fresh_needed] at hfresh
    | some pr =>
        rw [Option.map_some'] at hfresh
        have hpf : process_file cfg sys prev source (SrcTree.reg meta) root
            (some pr) =
            reg_link sys prev (join_path pr source) (join_path root source)
              (if cfg.count_bytes then meta.size else 0) := by
          unfold process_file
          simp [hex, hfresh]
        refine ⟨pr, rfl, hpf, ?_, ?_⟩
        · rw [hpf]
          unfold reg_link
          cases hp : prev (join_path pr source) with
          | absent => simp [symlink_source]
          | regular pmt =>
              simp only [symlink_source]
              cases h : sys.symlinkOk (join_path root source) <;> simp [h]
          | linkTo t pmt =>
              simp only [symlink_source]
              cases h1 : sys.readlinkOk (join_path pr source) <;>
                cases h2 : sys.symlinkOk (join_path root source) <;> simp [h1, h2]
        · have hchanged : prev_changed prev (join_path pr source) meta.mtime = false := by
            simp only [fresh_needed] at hfresh
            exact (Bool.or_eq_false_iff.mp hfresh).2
          cases hp : prev (join_path pr source) with
          | absent => rw [prev_changed, hp] at hchanged; cases hchanged
          | regular pmt =>
              refine ⟨join_path pr source, rfl, ?_⟩
              intro _ hsym
              rw [hpf]
              unfold reg_link
              rw [hp]
              simp [symlink_source, hsym]
          | linkTo t pmt =>
              refine ⟨t, rfl, ?_⟩
              intro hrl hsym
              rw [hpf]
              unfold reg_link
              rw [hp]
              simp [symlink_source, hrl, hsym]

/-- C1 witness: previous root unset with byte counting enabled takes
the fresh-copy path, materializes the copy, and adds the 5-byte size to
the copied-bytes accumulator. -/
theorem C1_witness :
    process_file cfgCount sysAllOk prevAbsent "/f" (SrcTree.reg metaReg) "/r" none =
      reg_fresh cfgCount sysAllOk "/f" (join_path "/r" "/f") metaReg
        (if cfgCount.count_bytes then metaReg.size else 0) ∧
    (process_file cfgCount sysAllOk prevAbsent "/f" (SrcTree.reg metaReg) "/r"
      none).bytes_copied = (if cfgCount.count_bytes then metaReg.size else 0) ∧
    (sysAllOk.copyOk (join_path "/r" "/f") = true →
      Effect.copyE "/f" (join_path "/r" "/f") metaReg.mode ∈
        (process_file cfgCount sysAllOk prevAbsent "/f" (SrcTree.reg metaReg) "/r"
          none).effects) :=
  (C1_regular_file_decision cfgCount sysAllOk prevAbsent "/f" "/r" none metaReg
    rfl).2.1 rfl

/-- C8 witness: with every call succeeding the link is materialized and
the entry succeeds. -/
theorem C8_witness :
    Effect.symlinkE "t1" (join_path "/r" "/l") ∈
      (process_file cfgPlain sysAllOk prevAbsent "/l" (SrcTree.lnk metaReg "t1")
        "/r" none).effects ∧
    (process_file cfgPlain sysAllOk prevAbsent "/l" (SrcTree.lnk metaReg "t1")
        "/r" none).ok = sysAllOk.lchownOk (join_path "/r" "/l") :=
  C8_symlink_entry cfgPlain sysAllOk prevAbsent "/l" "/r" none metaReg "t1" rfl rfl rfl

/-- Invariant of the readdir fold of locate_previous: either no child
beat the running latest and the fold state is unchanged, or the final
state names a candidate that achieved the maximum of all candidate
instants, strictly above the initial latest. -/
theorem locate_run_cases (p : String → Option (Int × Nat)) (root : String) :
    ∀ (cs : List String) (st : LocState),
      (cs.foldl (locate_step p root) st = st ∧
        ∀ u ∈ cs.filterMap (candInstant p), u ≤ st.latest) ∨
      (∃ n ∈ cs, ∃ t, candInstant p n = some t ∧
        cs.foldl (locate_step p root) st = ⟨some (join_path root n), t⟩ ∧
        st.latest < t ∧ ∀ u ∈ cs.filterMap (candInstant p), u ≤ t) := by
  intro cs
  induction cs with
  | nil =>
      intro st
      left
      exact ⟨rfl, by simp⟩
  | cons c cs ih =>
      intro st
      rw [List.foldl_cons]
      cases hc : candInstant p c with
      | none =>
          have hstep : locate_step p root st c = st := by
            unfold locate_step
            rw [hc]
          rw [hstep]
          rcases ih st with ⟨heq, hb⟩ | ⟨n, hn, t, hcand, heq, hlt, hb⟩
          · left
            refine ⟨heq, ?_⟩
            intro u hu
            rw [List.filterMap_cons_none hc] at hu
            exact hb u hu
          · right
            refine ⟨n, List.mem_cons_of_mem c hn, t, hcand, heq, hlt, ?_⟩
            intro u hu
            rw [List.filterMap_cons_none hc] at hu
            exact hb u hu
      | some v =>
          by_cases hlt : st.latest < v
          · have hstep : locate_step p root st c = ⟨some (join_path root c), v⟩ := by
              unfold locate_step
              rw [hc]
              simp [hlt]
            rw [hstep]
            rcases ih ⟨some (join_path root c), v⟩ with ⟨heq, hb⟩ |
              ⟨n, hn, t, hcand, heq, hlt2, hb⟩
            · right
              refine ⟨c, List.mem_cons_self c cs, v, hc, heq, hlt, ?_⟩
              intro u hu
              rw [List.filterMap_cons_some hc] at hu
              rcases List.mem_cons.mp hu with h | h
              · exact le_of_eq h
              · exact hb u h
            · right
              refine ⟨n, List.mem_cons_of_mem c hn, t, hcand, heq, lt_trans hlt hlt2, ?_⟩
              intro u hu
              rw [List.filterMap_cons_some hc] at hu
              rcases List.mem_cons.mp hu with h | h
              · exact le_of_lt (h ▸ hlt2)
              · exact hb u h
          · have hstep : locate_step p root st c = st := by
              unfold locate_step
              rw [hc]
              simp [hlt]
            rw [hstep]
            rcases ih st with ⟨heq, hb⟩ | ⟨n, hn, t, hcand, heq, hlt2, hb⟩
            · left
              refine ⟨heq, ?_⟩
              intro u hu
              rw [List.filterMap_cons_some hc] at hu
              rcases List.mem_cons.mp hu with h | h
              · exact h ▸ not_lt.mp hlt
              · exact hb u h
            · right
              refine ⟨n, List.mem_cons_of_mem c hn, t, hcand, heq, hlt2, ?_⟩
              intro u hu
              rw [List.filterMap_cons_some hc] at hu
              rcases List.mem_cons.mp hu with h | h
              · exact le_of_lt (lt_of_le_of_lt (h ▸ not_lt.mp hlt) hlt2)
              · exact hb u h

/-- C6 counterexample: a child that strictly parses to the epoch
instant is a validly-named child and the only candidate, yet the
locator returns none instead of that maximal candidate. -/
theorem C6_counterexample :
    candInstant parseEpochOnly "x" = some 0 ∧
    locate_previous parseEpochOnly "/bk" (some ["x"]) = none := by
  decide

/-- C6 amended: an unreadable root yields none; a child is disqualified
when the parse does not consume its whole name; when every candidate
instant is at or before the epoch the locator returns none; a returned
path names a candidate whose instant is strictly positive and maximal
among all candidates; and conversely, whenever some candidate has a
strictly positive instant the locator does return the path of a
candidate achieving the maximal instant. -/
theorem C6_locator_strict_and_maximal (p : String → Option (Int × Nat))
    (root : String) (cs : List String) (r : String) :
    locate_previous p root none = none ∧
    (∀ name t k, p name = some (t, k) → k ≠ name.length →
      strictParse p name = none) ∧
    ((∀ u ∈ cs.filterMap (candInstant p), u ≤ 0) →
      locate_previous p root (some cs) = none) ∧
    (locate_previous p root (some cs) = some r →
      ∃ n ∈ cs, ∃ t, candInstant p n = some t ∧ 0 < t ∧ r = join_path root n ∧
        ∀ u ∈ cs.filterMap (candInstant p), u ≤ t) ∧
    ((∃ u ∈ cs.filterMap (candInstant p), 0 < u) →
      ∃ n ∈ cs, ∃ t, candInstant p n = some t ∧ 0 < t ∧
        locate_previous p root (some cs) = some (join_path root n) ∧
        ∀ u ∈ cs.filterMap (candInstant p), u ≤ t) := by
  refine ⟨rfl, ?_, ?_, ?_, ?_⟩
  · intro name t k hp hk
    simp [strictParse, hp, hk]
  · intro hall
    simp only [locate_previous]
    rcases locate_run_cases p root cs ⟨none, 0⟩ with ⟨heq, _⟩ |
      ⟨n, hn, t, hcand, heq, hlt, _⟩
    · rw [heq]
    · exact absurd hlt (not_lt.mpr
        (hall t (List.mem_filterMap.mpr ⟨n, hn, hcand⟩)))
  · intro h
    simp only [locate_previous] at h
    rcases locate_run_cases p root cs ⟨none, 0⟩ with ⟨heq, _⟩ |
      ⟨n, hn, t, hcand, heq, hlt, hb⟩
    · rw [heq] at h
      cases h
    · rw [heq] at h
      simp only [Option.some.injEq] at h
      exact ⟨n, hn, t, hcand, hlt, h.symm, hb⟩
  · rintro ⟨u, hu, hupos⟩
    rcases locate_run_cases p root cs ⟨none, 0⟩ with ⟨heq, hb⟩ |
      ⟨n, hn, t, hcand, heq, hlt, hb⟩
    · exact absurd hupos (not_lt.mpr (hb u hu))
    · refine ⟨n, hn, t, hcand, hlt, ?_, hb⟩
      simp only [locate_previous]
      rw [heq]

/-- C6 witness: with candidates of instants 5 and 3 a strictly positive
candidate exists, and the locator returns the path of the maximal one. -/
theorem C6_witness :
    ∃ n ∈ ["a", "b"], ∃ t, candInstant parseTwo n = some t ∧ 0 < t ∧
      locate_previous parseTwo "/bk" (some ["a", "b"]) = some (join_path "/bk" n) ∧
      ∀ u ∈ ["a", "b"].filterMap (candInstant parseTwo), u ≤ t :=
  (C6_locator_strict_and_maximal parseTwo "/bk" ["a", "b"]
    (join_path "/bk" "a")).2.2.2.2 (by decide)

/-- C10: the running maximum starts at the epoch and is replaced only
on a strictly greater instant, so any returned previous snapshot names
a candidate with a strictly positive parsed instant. -/
theorem C10_returned_instant_positive (p : String → Option (Int × Nat))
    (root : String) (cs : List String) (r : String)
    (h : locate_previous p root (some cs) = some r) :
    ∃ n ∈ cs, ∃ t, candInstant p n = some t ∧ 0 < t ∧ r = join_path root n := by
  simp only [locate_previous] at h
  rcases locate_run_cases p root cs ⟨none, 0⟩ with ⟨heq, _⟩ |
    ⟨n, hn, t, hcand, heq, hlt, _⟩
  · rw [heq] at h
    cases h
  · rw [heq] at h
    simp only [Option.some.injEq] at h
    exact ⟨n, hn, t, hcand, hlt, h.symm⟩

/-- C10 witness: the locator applied to candidates of instants 5 and 3
returns a strictly-positive-instant candidate. -/
theorem C10_witness :
    ∃ n ∈ ["a", "b"], ∃ t, candInstant parseTwo n = some t ∧ 0 < t ∧
      join_path "/bk" "a" = join_path "/bk" n :=
  C10_returned_instant_positive parseTwo "/bk" ["a", "b"]
    (join_path "/bk" "a") (by decide)

/-- C9: the readdir loop is fail-fast: a failing child makes the loop
output exactly that child's output (no later sibling is processed and
its materializations are kept), a successful child prepends its output
to the rest of the loop, and a failing loop makes the enclosing
directory fail. -/
theorem C9_fail_fast (cfg : Config) (sys : Sys) (prev : String → PrevState)
    (source root : String) (prev_root : Option String) (name : String)
    (t : SrcTree) (rest : SrcForest) (meta : FileMeta) (children : SrcForest) :
    (ignore_dir name = false →
      (process_file cfg sys prev (join_path source name) t root prev_root).ok = false →
      process_children cfg sys prev source (SrcForest.cons name t rest) root prev_root =
        process_file cfg sys prev (join_path source name) t root prev_root) ∧
    (ignore_dir name = false →
      (process_file cfg sys prev (join_path source name) t root prev_root).ok = true →
      process_children cfg sys prev source (SrcForest.cons name t rest) root prev_root =
        ⟨(process_children cfg sys prev source rest root prev_root).ok,
          (process_file cfg sys prev (join_path source name) t root prev_root).effects ++
            (process_children cfg sys prev source rest root prev_root).effects,
          (process_file cfg sys prev (join_path source name) t root
              prev_root).total_bytes +
            (process_children cfg sys prev source rest root prev_root).total_bytes,
          (process_file cfg sys prev (join_path source name) t root
              prev_root).bytes_copied +
            (process_children cfg sys prev source rest root prev_root).bytes_copied⟩) ∧
    (excluded cfg source = false →
      sys.mkdirOk (join_path root source) = true →
      sys.opendirOk source = true →
      (process_children cfg sys prev source children root prev_root).ok = false →
      (process_file cfg sys prev source (SrcTree.dir meta children) root
        prev_root).ok = false) := by
  refine ⟨?_, ?_, ?_⟩
  · intro hig hfail
    unfold process_children
    simp [hig, hfail]
  · intro hig hok
    conv_lhs => rw [process_children]
    simp [hig, hok]
  · intro hex hmk hod hsub
    unfold process_file
    simp [hex, hmk, hod, hsub]

/-- C9 witness: an unrecognized-type child fails, and with a later
sibling present the loop output is exactly the failing child's output. -/
theorem C9_witness :
    process_children cfgPlain sysAllOk prevAbsent "/s"
        (SrcForest.cons "bad" (SrcTree.unknown metaReg)
          (SrcForest.cons "later" (SrcTree.reg metaReg) SrcForest.nil)) "/r" none =
      process_file cfgPlain sysAllOk prevAbsent (join_path "/s" "bad")
        (SrcTree.unknown metaReg) "/r" none :=
  (C9_fail_fast cfgPlain sysAllOk prevAbsent "/s" "/r" none "bad"
    (SrcTree.unknown metaReg)
    (SrcForest.cons "later" (SrcTree.reg metaReg) SrcForest.nil) metaReg
    SrcForest.nil).1 (by decide) (by decide)

end ISnapshot
